import Mathlib

/-!
Verification development for the PR triage server (`server/` package).

The Python sources are shallowly embedded: Python `str` is modelled as
`List Char`, Python floats appearing in the scoring heuristics are modelled
as exact rationals `ℚ`, Python `None` as `Option.none`, raised exceptions
as `Option.none` / `Except.error`, and the SQLite tables as in-memory lists
of rows.  Unicode-only behaviours of Python (`str.strip` and `\s` also
strip non-ASCII whitespace, `int()` accepts non-ASCII digits and `_`
grouping) are modelled with their ASCII restrictions; no claim below
depends on non-ASCII input.
-/

namespace PrReview

/-- Python `str` modelled as a list of characters. -/
abbrev PyStr := List Char

/-- ASCII whitespace as recognised by Python's `str.strip` / `\s`. -/
def pyIsSpace (c : Char) : Bool :=
  c = ' ' ∨ c = '\t' ∨ c = '\n' ∨ c = '\r' ∨ c = '\x0b' ∨ c = '\x0c'

/-- Python `str.strip()`: drop leading and trailing whitespace. -/
def pyStrip (s : PyStr) : PyStr :=
  ((s.dropWhile pyIsSpace).reverse.dropWhile pyIsSpace).reverse

/-- `s` contains no whitespace character. -/
def noWs (s : PyStr) : Bool := s.all (fun c => !(pyIsSpace c))

theorem dropWhile_eq_self_of_all {p : Char → Bool} {s : PyStr}
    (h : ∀ c ∈ s, p c = false) : s.dropWhile p = s := by
  cases s with
  | nil => rfl
  | cons c cs => simp [List.dropWhile, h c (by simp)]

theorem pyStrip_eq_self_of_noWs {s : PyStr} (h : noWs s = true) : pyStrip s = s := by
  have hall : ∀ c ∈ s, pyIsSpace c = false := by
    intro c hc
    have := (List.all_eq_true.mp h) c hc
    simpa using this
  unfold pyStrip
  rw [dropWhile_eq_self_of_all hall,
      dropWhile_eq_self_of_all (fun c hc => hall c (by simpa using hc)),
      List.reverse_reverse]

/-- Split a string at the first occurrence of `sep`; `none` if absent. -/
def splitFirst (sep : Char) : PyStr → Option (PyStr × PyStr)
  | [] => none
  | c :: rest =>
    if c = sep then some ([], rest)
    else (splitFirst sep rest).map (fun p => (c :: p.1, p.2))

theorem splitFirst_eq_none_of_not_mem {sep : Char} {s : PyStr}
    (h : sep ∉ s) : splitFirst sep s = none := by
  induction s with
  | nil => rfl
  | cons c rest ih =>
    have hc : c ≠ sep := by rintro rfl; exact h (by simp)
    have hrest : sep ∉ rest := fun hm => h (by simp [hm])
    simp [splitFirst, hc, ih hrest]

theorem splitFirst_decomp {sep : Char} {s a b : PyStr}
    (h : splitFirst sep s = some (a, b)) : s = a ++ sep :: b := by
  induction s generalizing a b with
  | nil => simp [splitFirst] at h
  | cons c rest ih =>
    by_cases hc : c = sep
    · subst hc
      simp [splitFirst] at h
      obtain ⟨rfl, rfl⟩ := h
      simp
    · rw [splitFirst, if_neg hc] at h
      match hsp : splitFirst sep rest with
      | none => rw [hsp] at h; simp at h
      | some (p, q) =>
        rw [hsp] at h
        simp at h
        obtain ⟨rfl, rfl⟩ := h
        simp [ih hsp]

/-- Split a string on every occurrence of `sep` (Python `str.split(sep)` for a
one-character separator, producing possibly-empty fields). -/
def splitOnChar (sep : Char) : PyStr → List PyStr
  | [] => [[]]
  | c :: rest =>
    if c = sep then [] :: splitOnChar sep rest
    else
      match splitOnChar sep rest with
      | f :: fs => (c :: f) :: fs
      | [] => [[c]]

/-- Decimal digit string to its numeric value. -/
def digitsToNat (s : PyStr) : Nat :=
  s.foldl (fun acc c => 10 * acc + (c.toNat - '0'.toNat)) 0

/-- Nonempty all-digit string to its value, `none` otherwise. -/
def digitsToNatOpt (s : PyStr) : Option Nat :=
  if s ≠ [] ∧ s.all Char.isDigit then some (digitsToNat s) else none

/-- Python `int(s)` on a decimal string: surrounding whitespace stripped, an
optional sign, then digits.  (`_` grouping and non-ASCII digits are not
modelled.) -/
def pyInt (s : PyStr) : Option Int :=
  match pyStrip s with
  | [] => none
  | c :: ds =>
    if c = '+' then (digitsToNatOpt ds).map (fun n => (n : Int))
    else if c = '-' then (digitsToNatOpt ds).map (fun n => -(n : Int))
    else (digitsToNatOpt (c :: ds)).map (fun n => (n : Int))

theorem pyInt_digits {s : PyStr} (hne : s ≠ []) (hd : s.all Char.isDigit = true) :
    pyInt s = some (digitsToNat s) := by
  have hnws : noWs s = true := by
    simp only [noWs, List.all_eq_true]
    intro c hc
    have h9 := (List.all_eq_true.mp hd) c hc
    cases hsp : pyIsSpace c with
    | false => simp [hsp]
    | true =>
      exfalso
      have hmem : c = ' ' ∨ c = '\t' ∨ c = '\n' ∨ c = '\r' ∨ c = '\x0b' ∨ c = '\x0c' := by
        simpa [pyIsSpace] using hsp
      rcases hmem with rfl | rfl | rfl | rfl | rfl | rfl <;> exact absurd h9 (by decide)
  unfold pyInt
  rw [pyStrip_eq_self_of_noWs hnws]
  cases s with
  | nil => exact absurd rfl hne
  | cons c ds =>
    have hc : c.isDigit = true := by
      have := (List.all_eq_true.mp hd) c (by simp)
      simpa using this
    have hcp : ¬ c = '+' := by
      rintro rfl; revert hc; decide
    have hcm : ¬ c = '-' := by
      rintro rfl; revert hc; decide
    simp [hcp, hcm, digitsToNatOpt, hd]

/-- Python falsy-aware `a or b` on optional strings (`None` and `""` are falsy). -/
def orStr (a b : Option PyStr) : Option PyStr :=
  match a with
  | none => b
  | some s => if s = [] then b else some s

/-- Python falsy-aware `a or b` on optional integers (`None` and `0` are falsy). -/
def orInt (a b : Option Int) : Option Int :=
  match a with
  | none => b
  | some v => if v = 0 then b else some v

/-- Byte-wise (ASCII/codepoint) `≤` on strings, as used by SQLite's BINARY
collation when comparing TEXT values. -/
def strLe : PyStr → PyStr → Bool
  | [], _ => true
  | _ :: _, [] => false
  | a :: as, b :: bs =>
    if a.toNat < b.toNat then true
    else if a.toNat > b.toNat then false
    else strLe as bs

/-- SQLite ordering on nullable TEXT: `NULL` sorts below every string. -/
def sqlOptLe : Option PyStr → Option PyStr → Bool
  | none, _ => true
  | some _, none => false
  | some a, some b => strLe a b

/-- One step of a stable descending insertion sort: `a` is placed before the
first element `y` with `r y a` (read `r y a` as "y's key ≤ a's key"), i.e.
after every strictly larger element and after every earlier equal element.
Python's `list.sort(key=…, reverse=True)` is a stable descending sort, and a
stable sort is extensionally unique, so this embeds it faithfully. -/
def insB (r : α → α → Bool) (a : α) : List α → List α
  | [] => [a]
  | y :: ys => if r y a then a :: y :: ys else y :: insB r a ys

/-- Stable descending sort (`foldr` keeps earlier input elements in front of
later equal ones). -/
def sortB (r : α → α → Bool) (l : List α) : List α := l.foldr (insB r) []

theorem insB_perm (r : α → α → Bool) (a : α) (l : List α) :
    List.Perm (insB r a l) (a :: l) := by
  induction l with
  | nil => rfl
  | cons y ys ih =>
    by_cases h : r y a
    · simp [insB, h]
    · simp only [insB, if_neg h]
      exact (ih.cons y).trans (List.Perm.swap a y ys)

theorem sortB_perm (r : α → α → Bool) (l : List α) : List.Perm (sortB r l) l := by
  induction l with
  | nil => rfl
  | cons a l ih => exact ((insB_perm r a (sortB r l)).trans (ih.cons a))

theorem insB_pairwise (r : α → α → Bool)
    (htot : ∀ x y, r x y = true ∨ r y x = true)
    (htrans : ∀ x y z, r x y = true → r y z = true → r x z = true)
    (a : α) (l : List α) (hl : l.Pairwise (fun x y => r y x = true)) :
    (insB r a l).Pairwise (fun x y => r y x = true) := by
  induction l with
  | nil => simp [insB]
  | cons y ys ih =>
    rcases hl with _ | ⟨hy, hys⟩
    by_cases h : r y a
    · simp only [insB, if_pos h]
      refine List.Pairwise.cons ?_ (List.Pairwise.cons hy hys)
      intro z hz
      rcases List.mem_cons.mp hz with rfl | hz
      · exact h
      · exact htrans z y a (hy z hz) h
    · simp only [insB, if_neg h]
      refine List.Pairwise.cons ?_ (ih hys)
      intro z hz
      have hz' : z ∈ a :: ys := (insB_perm r a ys).mem_iff.mp hz
      rcases List.mem_cons.mp hz' with rfl | hz2
      · rcases htot y z with hyz | hzy
        · exact absurd hyz h
        · exact hzy
      · exact hy z hz2

theorem sortB_pairwise (r : α → α → Bool)
    (htot : ∀ x y, r x y = true ∨ r y x = true)
    (htrans : ∀ x y z, r x y = true → r y z = true → r x z = true)
    (l : List α) : (sortB r l).Pairwise (fun x y => r y x = true) := by
  induction l with
  | nil => simp [sortB]
  | cons a l ih => exact insB_pairwise r htot htrans a (sortB r l) ih

theorem filter_insB_pos (r : α → α → Bool) (p : α → Bool) (a : α) (l : List α)
    (hpa : p a = true) (hcomp : ∀ y, p y = true → r y a = true) :
    (insB r a l).filter p = a :: l.filter p := by
  induction l with
  | nil => simp [insB, hpa]
  | cons y ys ih =>
    by_cases h : r y a
    · simp [insB, h, hpa]
    · have hpy : p y = false := by
        cases hy : p y with
        | false => rfl
        | true => exact absurd (hcomp y hy) h
      simp [insB, h, hpy, ih]

theorem filter_insB_neg (r : α → α → Bool) (p : α → Bool) (a : α) (l : List α)
    (hpa : p a = false) : (insB r a l).filter p = l.filter p := by
  induction l with
  | nil => simp [insB, hpa]
  | cons y ys ih =>
    by_cases h : r y a
    · simp [insB, h, hpa]
    · cases hy : p y with
      | false => simp [insB, h, hy, ih]
      | true => simp [insB, h, hy, ih]

/-- Stability of `sortB`: a filter on a class of mutually `r`-equivalent
elements is unchanged by sorting, i.e. equal-key elements keep their input
order. -/
theorem sortB_stable (r : α → α → Bool) (p : α → Bool)
    (hcomp : ∀ x y, p x = true → p y = true → r x y = true)
    (l : List α) : (sortB r l).filter p = l.filter p := by
  induction l with
  | nil => rfl
  | cons a l ih =>
    show (insB r a (sortB r l)).filter p = _
    cases hpa : p a with
    | false => simp [filter_insB_neg r p a _ hpa, ih, hpa]
    | true =>
      rw [filter_insB_pos r p a _ hpa (fun y hy => hcomp y a hy hpa), ih]
      simp [hpa]

/-- Render a natural number in decimal (for Python f-string interpolation). -/
def natToStr (n : Nat) : PyStr := Nat.toDigits 10 n

/-- Render an integer in decimal. -/
def intToStr (i : Int) : PyStr :=
  if i < 0 then '-' :: natToStr i.natAbs else natToStr i.natAbs

/-! ## `server/scoring.py` -/

/-- The PR dict consumed by the scoring heuristics, with the keys that the
scoring code (and the spec's factor model, for `ci_status`) consults.  Every
field is optional, mirroring `dict.get` with a default. -/
structure PrDict where
  additions : Option Int := none
  deletions : Option Int := none
  changed_files : Option Int := none
  has_tests : Option Bool := none
  doc_touch_ratio : Option ℚ := none
  draft : Option Bool := none
  state : Option PyStr := none
  ci_status : Option PyStr := none
deriving DecidableEq

/-- `scoring.Scores`: the nine heuristic dimensions (floats as `ℚ`). -/
structure Scores where
  code_quality : ℚ
  verbosity : ℚ
  efficiency : ℚ
  stability : ℚ
  robustness : ℚ
  clean_code : ℚ
  reusability : ℚ
  ingenuity : ℚ
  attention : ℚ
deriving DecidableEq

/-- `scoring.clamp(value, lo=0.0, hi=10.0)`. -/
def clamp (value : ℚ) (lo : ℚ := 0) (hi : ℚ := 10) : ℚ :=
  max lo (min hi value)

/-- `int(pr.get(k, 0) or 0)`: missing (and `None`/`0`) coalesce to `0`. -/
def coInt (v : Option Int) : Int := v.getD 0

/-- `bool(pr.get(k, False))`: missing coalesces to `False`. -/
def coBool (v : Option Bool) : Bool := v.getD false

/-- `float(pr.get(k, 0.0) or 0.0)`. -/
def coRat (v : Option ℚ) : ℚ := v.getD 0

/-- `pr.get("state", "open") or "open"`: missing, `None` and `""` give `"open"`. -/
def coState (v : Option PyStr) : PyStr :=
  match v with
  | none => "open".data
  | some s => if s = [] then "open".data else s

/-- Modelled from the spec: `ci_status` null-coalesces to `"unknown"` (§4.4). -/
def coCi (v : Option PyStr) : PyStr :=
  match v with
  | none => "unknown".data
  | some s => if s = [] then "unknown".data else s

/-- `scoring.score_pr`, transcribed line by line. -/
def score_pr (pr : PrDict) : Scores :=
  let additions := coInt pr.additions
  let deletions := coInt pr.deletions
  let changed_files := coInt pr.changed_files
  let has_tests := coBool pr.has_tests
  let doc_touch_ratio := coRat pr.doc_touch_ratio
  let draft := coBool pr.draft
  let state := coState pr.state
  let churn := additions + deletions
  let size_penalty : ℚ :=
    if churn < 50 then 0
    else if churn < 200 then 2
    else if churn < 600 then 4
    else 6
  let code_quality := clamp (9 - size_penalty + (if has_tests then 1 else -1))
  let verbosity := clamp (5 + (doc_touch_ratio * 5) - ((churn : ℚ) / 800))
  let efficiency := clamp (7 - ((churn : ℚ) / 400))
  let stability := clamp ((if has_tests then 8 else 5)
    + (if state = "merged".data then 2 else 0) - (if draft then 2 else 0))
  let robustness := clamp ((if has_tests then 6 else 4)
    + (if doc_touch_ratio > 1/10 then 1 else 0))
  let clean_code := clamp (7 - size_penalty / 2)
  let reusability := clamp (6 + (doc_touch_ratio * 2) - ((changed_files : ℚ) / 50))
  let ingenuity := clamp (5 + min 3 (doc_touch_ratio * 2) - size_penalty / 3)
  let risk : ℚ :=
    (if churn > 600 then 30 else 0)
    + (if ¬ has_tests then 20 else 0)
    + (if draft then 10 else 0)
    + (if changed_files > 30 then 10 else 0)
    + (if state = "open".data then 15 else 0)
  let attention := max 0 (min 100 (30 + risk - doc_touch_ratio * 10))
  { code_quality := code_quality
    verbosity := verbosity
    efficiency := efficiency
    stability := stability
    robustness := robustness
    clean_code := clean_code
    reusability := reusability
    ingenuity := ingenuity
    attention := attention }

/-- Modelled from the spec: the CI factor of the §4.4 attention-factor model
(failure/error → 25, cancelled/pending/in_progress → 10, success/neutral → 0,
unknown/otherwise → 5). -/
def specCiFactor (ci : PyStr) : ℤ :=
  if ci = "failure".data ∨ ci = "error".data then 25
  else if ci = "cancelled".data ∨ ci = "pending".data ∨ ci = "in_progress".data then 10
  else if ci = "success".data ∨ ci = "neutral".data then 0
  else 5

/-- Modelled from the spec: the §4.4 additive attention-factor model that
claim C1 states (`compute_attention`, which `server/main.py` imports, is not
present under `src/`; this renders the spec's formula).  `round` is Mathlib's
round (the spec does not fix a half-way convention; no input used below sits
on a half). -/
def specAttentionFactorModel (pr : PrDict) : ℤ :=
  let churn : ℚ := ((coInt pr.additions + coInt pr.deletions : Int) : ℚ)
  let changed_files : ℚ := ((coInt pr.changed_files : Int) : ℚ)
  let churnFactor : ℤ := round (30 * clamp (churn / 500) 0 1)
  let fileFactor : ℤ := round (20 * clamp (changed_files / 20) 0 1)
  let ciFactor : ℤ := specCiFactor (coCi pr.ci_status)
  let missingTests : ℤ := if coBool pr.has_tests then 0 else 15
  let draftPenalty : ℤ := if coBool pr.draft then -10 else 0
  let docsPenalty : ℤ := if coRat pr.doc_touch_ratio > 1/2 then -5 else 0
  min 100 (max 0 (churnFactor + fileFactor + ciFactor + missingTests + draftPenalty + docsPenalty))

/-- The attention formula `score_pr` actually implements (risk model): base 30,
plus 30 if churn > 600, 20 if tests are missing, 10 if draft, 10 if more than
30 changed files and 15 if the state is "open", minus `10 · doc_touch_ratio`,
clamped to [0, 100]. -/
def riskAttentionFormula (pr : PrDict) : ℚ :=
  let churn := coInt pr.additions + coInt pr.deletions
  max 0 (min 100 (30 +
    ((if churn > 600 then (30 : ℚ) else 0)
      + (if ¬ coBool pr.has_tests then 20 else 0)
      + (if coBool pr.draft then 10 else 0)
      + (if coInt pr.changed_files > 30 then 10 else 0)
      + (if coState pr.state = "open".data then 15 else 0))
    - coRat pr.doc_touch_ratio * 10))

/-- First example input of claim C1. -/
def c1ex1 : PrDict :=
  { additions := some 700
    deletions := some 100
    changed_files := some 40
    has_tests := some false
    draft := some false
    ci_status := some "failure".data
    doc_touch_ratio := some (1/20) }

/-- Second example input of claim C1. -/
def c1ex2 : PrDict :=
  { additions := some 0
    deletions := some 0
    changed_files := some 0
    has_tests := some true
    draft := some false
    ci_status := some "success".data
    doc_touch_ratio := some 0 }

/-- Claim C1 (counterexample): the attention score computed by the scoring
code on the claim's first example is 100, not the 90 demanded by the additive
factor model; the spec's factor model itself does yield 90 there, so the code
does not implement that model. -/
theorem score_pr_factor_model_counterexample :
    (score_pr c1ex1).attention = 100 ∧ specAttentionFactorModel c1ex1 = 90
      ∧ (100 : ℚ) ≠ (90 : ℚ) := by
  have hci : specCiFactor (coCi (some ['f', 'a', 'i', 'l', 'u', 'r', 'e'])) = 25 := by
    decide
  refine ⟨?_, ?_, by norm_num⟩
  · norm_num [score_pr, c1ex1, coInt, coBool, coRat, coState, max_def, min_def]
  · norm_num [specAttentionFactorModel, c1ex1, hci, coInt, coBool, coRat, clamp,
      max_def, min_def, round_eq]

/-- Claim C1 (amended): the attention score equals the risk model
`clamp(30 + risk − 10·doc_touch_ratio, 0, 100)` with risk bumps for churn
above 600, missing tests, draft, more than 30 changed files and open state;
the claim's first example scores 100 and its second example scores 45. -/
theorem score_pr_attention_risk_model :
    (∀ pr, (score_pr pr).attention = riskAttentionFormula pr)
      ∧ (score_pr c1ex1).attention = 100 ∧ (score_pr c1ex2).attention = 45 := by
  refine ⟨fun _ => rfl, ?_, ?_⟩
  · norm_num [score_pr, c1ex1, coInt, coBool, coRat, coState, max_def, min_def]
  · norm_num [score_pr, c1ex2, coInt, coBool, coRat, coState, max_def, min_def]

/-- Claim C5: clamp lower bound. -/
theorem clamp_lo (v lo hi : ℚ) : lo ≤ clamp v lo hi := le_max_left lo _

/-- Claim C5: clamp upper bound. -/
theorem clamp_hi (v lo hi : ℚ) (h : lo ≤ hi) : clamp v lo hi ≤ hi :=
  max_le h (min_le_left hi v)

/-- Claim C5: for every input record — fields missing, null or negative
included — the attention score lies in [0, 100], every qualitative dimension
lies in [0, 10], and scoring is total (`score_pr` is a function, never
failing). -/
theorem score_pr_bounds (pr : PrDict) :
    (0 ≤ (score_pr pr).attention ∧ (score_pr pr).attention ≤ 100)
    ∧ (0 ≤ (score_pr pr).code_quality ∧ (score_pr pr).code_quality ≤ 10)
    ∧ (0 ≤ (score_pr pr).verbosity ∧ (score_pr pr).verbosity ≤ 10)
    ∧ (0 ≤ (score_pr pr).efficiency ∧ (score_pr pr).efficiency ≤ 10)
    ∧ (0 ≤ (score_pr pr).stability ∧ (score_pr pr).stability ≤ 10)
    ∧ (0 ≤ (score_pr pr).robustness ∧ (score_pr pr).robustness ≤ 10)
    ∧ (0 ≤ (score_pr pr).clean_code ∧ (score_pr pr).clean_code ≤ 10)
    ∧ (0 ≤ (score_pr pr).reusability ∧ (score_pr pr).reusability ≤ 10)
    ∧ (0 ≤ (score_pr pr).ingenuity ∧ (score_pr pr).ingenuity ≤ 10) := by
  refine ⟨⟨?_, ?_⟩, ⟨?_, ?_⟩, ⟨?_, ?_⟩, ⟨?_, ?_⟩, ⟨?_, ?_⟩, ⟨?_, ?_⟩, ⟨?_, ?_⟩,
    ⟨?_, ?_⟩, ⟨?_, ?_⟩⟩ <;> dsimp only [score_pr, clamp] <;>
    first
      | exact le_max_left _ _
      | exact max_le (by norm_num) (min_le_left _ _)

/-! ## `server/recommend.py` -/

/-- `NEXT_STEPS_TEMPLATES['tests_missing']`. -/
def tmplTestsMissing : PyStr :=
  "Add/extend unit tests targeting new logic and edge cases; gate with CI.".data

/-- `NEXT_STEPS_TEMPLATES['docs_low']`. -/
def tmplDocsLow : PyStr :=
  "Augment README/inline docs; explain rationale and trade-offs.".data

/-- `NEXT_STEPS_TEMPLATES['too_large']`. -/
def tmplTooLarge : PyStr :=
  "Split PR into cohesive commits/modules; isolate refactors from logic changes.".data

/-- `NEXT_STEPS_TEMPLATES['needs_review']`. -/
def tmplNeedsReview : PyStr :=
  "Request review from owner of touched module; add checklists.".data

/-- `NEXT_STEPS_TEMPLATES['perf_risk']`. -/
def tmplPerfRisk : PyStr :=
  "Benchmark hotspots; add micro-bench or profiling notes.".data

/-- The template catalog in trigger order. -/
def templateCatalog : List PyStr :=
  [tmplTestsMissing, tmplDocsLow, tmplTooLarge, tmplNeedsReview, tmplPerfRisk]

/-- The de-duplicate-and-cap-at-3 loop at the end of
`recommend.recommendations` (the `seen` set always holds exactly the elements
of the accumulator, so one accumulator suffices). -/
def dedupCap3 (out : List PyStr) : List PyStr → List PyStr
  | [] => out.reverse
  | r :: rest =>
    if r ∈ out then dedupCap3 out rest
    else if out.length + 1 ≥ 3 then (r :: out).reverse
    else dedupCap3 (r :: out) rest

/-- The `recs` list built by the five sequential triggers of
`recommend.recommendations` (`has_tests = bool(pr.get('has_tests'))`). -/
def recTriggers (scores : Scores) (pr : PrDict) : List PyStr :=
  (if scores.stability < 6 ∨ ¬ coBool pr.has_tests then [tmplTestsMissing] else [])
  ++ (if scores.verbosity < 5 then [tmplDocsLow] else [])
  ++ (if scores.clean_code < 6 then [tmplTooLarge] else [])
  ++ (if scores.attention > 60 then [tmplNeedsReview] else [])
  ++ (if scores.efficiency < 5 then [tmplPerfRisk] else [])

/-- `recommend.recommendations`: the five triggers in order, then dedup/cap. -/
def recommendations (scores : Scores) (pr : PrDict) : List PyStr :=
  dedupCap3 [] (recTriggers scores pr)

theorem dedupCap3_decomp (l out : List PyStr) :
    ∃ t, dedupCap3 out l = out.reverse ++ t ∧ t.Sublist l := by
  induction l generalizing out with
  | nil => exact ⟨[], by simp [dedupCap3], List.Sublist.refl []⟩
  | cons r rest ih =>
    by_cases hmem : r ∈ out
    · obtain ⟨t, ht, hs⟩ := ih out
      exact ⟨t, by simp [dedupCap3, hmem, ht], hs.cons r⟩
    · by_cases hlen : out.length + 1 ≥ 3
      · exact ⟨[r], by simp [dedupCap3, hmem, hlen], by simp⟩
      · obtain ⟨t, ht, hs⟩ := ih (r :: out)
        refine ⟨r :: t, ?_, hs.cons₂ r⟩
        simp [dedupCap3, hmem, hlen, ht]

theorem dedupCap3_length_le (l out : List PyStr) (h : out.length ≤ 2) :
    (dedupCap3 out l).length ≤ 3 := by
  induction l generalizing out with
  | nil => simpa [dedupCap3] using le_trans h (by norm_num)
  | cons r rest ih =>
    by_cases hmem : r ∈ out
    · simpa [dedupCap3, hmem] using ih out h
    · by_cases hlen : out.length + 1 ≥ 3
      · simpa [dedupCap3, hmem, hlen] using by omega
      · have : (r :: out).length ≤ 2 := by simp; omega
        simpa [dedupCap3, hmem, hlen] using ih (r :: out) this

theorem dedupCap3_nodup (l out : List PyStr) (h : out.Nodup) :
    (dedupCap3 out l).Nodup := by
  induction l generalizing out with
  | nil => simpa [dedupCap3, List.nodup_reverse] using h
  | cons r rest ih =>
    by_cases hmem : r ∈ out
    · simpa [dedupCap3, hmem] using ih out h
    · by_cases hlen : out.length + 1 ≥ 3
      · have hn : (r :: out).Nodup := List.Nodup.cons hmem h
        have hrev := List.nodup_reverse.mpr hn
        simpa [dedupCap3, hmem, hlen] using hrev
      · have : (r :: out).Nodup := List.Nodup.cons hmem h
        simpa [dedupCap3, hmem, hlen] using ih (r :: out) this

theorem ifList_sublist {c : Prop} [Decidable c] (a : PyStr) (l₁ l₂ : List PyStr)
    (h : l₁.Sublist l₂) : ((if c then [a] else []) ++ l₁).Sublist (a :: l₂) := by
  by_cases hc : c
  · simpa [hc] using h.cons₂ a
  · simpa [hc] using h.cons a

theorem recTriggers_sublist (scores : Scores) (pr : PrDict) :
    (recTriggers scores pr).Sublist templateCatalog := by
  have h5 : (if scores.efficiency < 5 then [tmplPerfRisk] else []).Sublist
      [tmplPerfRisk] := by
    by_cases h : scores.efficiency < 5 <;> simp [h]
  unfold recTriggers templateCatalog
  simp only [List.append_assoc]
  refine @ifList_sublist _ _ _ _ _ ?_
  refine @ifList_sublist _ _ _ _ _ ?_
  refine @ifList_sublist _ _ _ _ _ ?_
  refine @ifList_sublist _ _ _ _ _ ?_
  exact h5

/-- Claim C7: per-PR recommendations contain at most 3 strings, no duplicates,
drawn from the fixed catalog in trigger order; and a PR with `has_tests=false`
and `verbosity<5` gets the tests suggestion first and the docs suggestion
second. -/
theorem recommendations_spec (scores : Scores) (pr : PrDict) :
    (recommendations scores pr).length ≤ 3
    ∧ (recommendations scores pr).Nodup
    ∧ (recommendations scores pr).Sublist templateCatalog
    ∧ (coBool pr.has_tests = false → scores.verbosity < 5 →
        ∃ rest, recommendations scores pr
          = tmplTestsMissing :: tmplDocsLow :: rest) := by
  refine ⟨dedupCap3_length_le _ [] (by simp), dedupCap3_nodup _ [] (by simp), ?_, ?_⟩
  · obtain ⟨t, ht, hs⟩ := dedupCap3_decomp (recTriggers scores pr) []
    simp only [List.reverse_nil, List.nil_append] at ht
    show (dedupCap3 [] (recTriggers scores pr)).Sublist templateCatalog
    rw [ht]
    exact hs.trans (recTriggers_sublist scores pr)
  · intro hnt hv
    have hc1 : scores.stability < 6 ∨ ¬ (coBool pr.has_tests = true) :=
      Or.inr (by simp [hnt])
    have htrig : recTriggers scores pr = tmplTestsMissing :: tmplDocsLow ::
        ((if scores.clean_code < 6 then [tmplTooLarge] else [])
          ++ (if scores.attention > 60 then [tmplNeedsReview] else [])
          ++ (if scores.efficiency < 5 then [tmplPerfRisk] else [])) := by
      unfold recTriggers
      rw [if_pos hc1, if_pos hv]
      simp
    have hne : ¬ (tmplDocsLow ∈ [tmplTestsMissing]) := by decide
    obtain ⟨t, ht, _⟩ := dedupCap3_decomp
      ((if scores.clean_code < 6 then [tmplTooLarge] else [])
        ++ (if scores.attention > 60 then [tmplNeedsReview] else [])
        ++ (if scores.efficiency < 5 then [tmplPerfRisk] else []))
      [tmplDocsLow, tmplTestsMissing]
    refine ⟨t, ?_⟩
    show dedupCap3 [] (recTriggers scores pr) = _
    rw [htrig, dedupCap3, if_neg (by simp), if_neg (by norm_num),
        dedupCap3, if_neg hne, if_neg (by norm_num), ht]
    simp

/-- Scores for the C7 witness: verbosity below 5, everything else unremarkable. -/
def c7scores : Scores :=
  { code_quality := 5
    verbosity := 4
    efficiency := 6
    stability := 7
    robustness := 5
    clean_code := 7
    reusability := 5
    ingenuity := 5
    attention := 10 }

/-- PR dict for the C7 witness: tests missing. -/
def c7pr : PrDict := { has_tests := some false }

/-- Claim C7 witness: the theorem applied at a concrete low-quality PR. -/
theorem recommendations_spec_witness :
    (recommendations c7scores c7pr).length ≤ 3
    ∧ (recommendations c7scores c7pr).Nodup
    ∧ (recommendations c7scores c7pr).Sublist templateCatalog
    ∧ ∃ rest, recommendations c7scores c7pr
        = tmplTestsMissing :: tmplDocsLow :: rest := by
  obtain ⟨h1, h2, h3, h4⟩ := recommendations_spec c7scores c7pr
  exact ⟨h1, h2, h3, h4 rfl (by norm_num [c7scores])⟩

/-- An element of the `aggregate` argument of `recommend.roadmap_hint`:
a dict with optional `scores` and `pr` entries. -/
structure AggItem where
  scores : Option Scores := none
  pr : Option PrDict := none
deriving DecidableEq

/-- Hint: empty batch (bootstrap). -/
def msgBootstrap : PyStr := "No data yet.".data

/-- Hint: combined docs+attention issue. -/
def msgCombined : PyStr :=
  "Prioritize a documentation and testing sprint; enforce PR size guardrails and module ownership.".data

/-- Hint: high attention alone. -/
def msgAttn : PyStr :=
  "Enforce PR size guardrails; require risk checklists on high-attention changes.".data

/-- Hint: low docs alone. -/
def msgDocs : PyStr :=
  "Invest in better documentation and rationale sections in PRs; adopt a docs checklist.".data

/-- Hint: low tests. -/
def msgTests : PyStr :=
  "Schedule a testing push; add CI gates requiring targeted unit tests on changed modules.".data

/-- Hint: performance risk. -/
def msgPerf : PyStr :=
  "Add performance budgets and basic benchmarks for hotspots; profile critical paths.".data

/-- Hint: steady state. -/
def msgSteady : PyStr :=
  "Steady state; continue current review process and incremental improvements.".data

/-- `a.get('scores') is not None and float(getattr(a['scores'],'attention',0.0)) > 70.0`. -/
def condAttnHigh (a : AggItem) : Bool :=
  match a.scores with
  | none => false
  | some s => s.attention > 70

/-- `a.get('scores') is not None and float(...verbosity...) < 5.0`. -/
def condLowDocs (a : AggItem) : Bool :=
  match a.scores with
  | none => false
  | some s => s.verbosity < 5

/-- `a.get('pr') is not None and not bool(a['pr'].get('has_tests'))`. -/
def condLowTests (a : AggItem) : Bool :=
  match a.pr with
  | none => false
  | some pr => ¬ coBool pr.has_tests

/-- `a.get('scores') is not None and float(...efficiency...) < 5.0`. -/
def condPerfRisk (a : AggItem) : Bool :=
  match a.scores with
  | none => false
  | some s => s.efficiency < 5

/-- `recommend.roadmap_hint`: generator-`sum` counts (modelled as sums of
indicators) compared against `max(2, total // k)`, then the fixed priority
chain of hints. -/
def roadmap_hint (aggregate : List AggItem) : PyStr :=
  if aggregate = [] then msgBootstrap
  else
    let total := aggregate.length
    let attn_high := (aggregate.map (fun a => if condAttnHigh a then (1 : Nat) else 0)).sum
    let low_docs := (aggregate.map (fun a => if condLowDocs a then (1 : Nat) else 0)).sum
    let low_tests := (aggregate.map (fun a => if condLowTests a then (1 : Nat) else 0)).sum
    let perf_risk := (aggregate.map (fun a => if condPerfRisk a then (1 : Nat) else 0)).sum
    if attn_high ≥ max 2 (total / 3) ∧ low_docs ≥ max 2 (total / 4) then msgCombined
    else if attn_high ≥ max 2 (total / 3) then msgAttn
    else if low_docs ≥ max 2 (total / 4) then msgDocs
    else if low_tests ≥ max 2 (total / 4) then msgTests
    else if perf_risk ≥ max 2 (total / 4) then msgPerf
    else msgSteady

/-- The roadmap rule as claim C8 words it: counts of records meeting each
condition, thresholds `max(2, total // 3)` for attention and
`max(2, total // 4)` for the rest, first matching rule in the fixed priority
order, steady-state otherwise, bootstrap on an empty batch. -/
def roadmapHintSpec (aggregate : List AggItem) : PyStr :=
  if aggregate = [] then msgBootstrap
  else
    let total := aggregate.length
    let attn_high := aggregate.countP condAttnHigh
    let low_docs := aggregate.countP condLowDocs
    let low_tests := aggregate.countP condLowTests
    let perf_risk := aggregate.countP condPerfRisk
    if attn_high ≥ max 2 (total / 3) ∧ low_docs ≥ max 2 (total / 4) then msgCombined
    else if attn_high ≥ max 2 (total / 3) then msgAttn
    else if low_docs ≥ max 2 (total / 4) then msgDocs
    else if low_tests ≥ max 2 (total / 4) then msgTests
    else if perf_risk ≥ max 2 (total / 4) then msgPerf
    else msgSteady

theorem sum_indicator_eq_countP (p : α → Bool) (l : List α) :
    (l.map (fun a => if p a then (1 : Nat) else 0)).sum = l.countP p := by
  induction l with
  | nil => rfl
  | cons a l ih => by_cases h : p a <;> simp [List.countP_cons, h, ih, Nat.add_comm]

/-- Claim C8: the roadmap hint follows the count/threshold/priority rule of
the spec exactly, including the bootstrap message on an empty batch and the
steady-state fallback. -/
theorem roadmap_hint_spec :
    (∀ aggregate, roadmap_hint aggregate = roadmapHintSpec aggregate)
    ∧ roadmap_hint [] = msgBootstrap := by
  constructor
  · intro aggregate
    unfold roadmap_hint roadmapHintSpec
    simp only [sum_indicator_eq_countP]
  · rfl

/-! ## `server/main.py` (ranking step of `review_prs`) -/

/-- A scored item as ranked by `review_prs`: the row together with the
attention score attached at `x["attention"]["score"]`. -/
structure RankedItem where
  score : ℚ
  row : PrDict
deriving DecidableEq

/-- The ranking step of `main.review_prs`:
`items.sort(key=lambda x: x["attention"]["score"], reverse=True)`. -/
def rankByAttention (items : List RankedItem) : List RankedItem :=
  sortB (fun x y => decide (x.score ≤ y.score)) items

/-- Claim C9: ranking is a permutation of the batch, sorted by attention
score descending, and stable — for every score value, the sub-sequence of
records carrying that score is exactly the one of the input, so equal-score
records keep their relative input order and repeated ranking of an unchanged
input (a pure function of it) is deterministic. -/
theorem rank_by_attention_stable_desc (l : List RankedItem) :
    List.Perm (rankByAttention l) l
    ∧ (rankByAttention l).Pairwise (fun a b => b.score ≤ a.score)
    ∧ ∀ q : ℚ, (rankByAttention l).filter (fun x => decide (x.score = q))
        = l.filter (fun x => decide (x.score = q)) := by
  refine ⟨sortB_perm _ l, ?_, ?_⟩
  · have h := sortB_pairwise (fun x y => decide (x.score ≤ y.score))
      (fun x y => by
        rcases le_total x.score y.score with h | h
        · exact Or.inl (by simpa using h)
        · exact Or.inr (by simpa using h))
      (fun x y z hxy hyz => by
        simp only [decide_eq_true_eq] at hxy hyz ⊢
        exact le_trans hxy hyz) l
    exact h.imp (fun hab => by simpa using hab)
  · intro q
    exact sortB_stable _ _ (fun x y hx hy => by
      simp only [decide_eq_true_eq] at hx hy ⊢
      rw [hx, hy]) l

/-! ## `server/github.py` (`parse_pr_identifier`) -/

/-- The short-form regex
`^(?P<owner>[^\s/]+)/(?P<repo>[^\s#]+)#(?P<number>\d+)$` of
`parse_pr_identifier`: `owner` is the nonempty, whitespace- and slash-free
text before the first `/`; `repo` the nonempty, whitespace- and hash-free
text from there to the first following `#` (it may contain `/`); the rest
must be a nonempty digit string. -/
def shortMatch (s : PyStr) : Option (PyStr × PyStr × Int) :=
  match splitFirst '/' s with
  | none => none
  | some (owner, rest) =>
    match splitFirst '#' rest with
    | none => none
    | some (repo, num) =>
      if owner ≠ [] ∧ noWs owner ∧ repo ≠ [] ∧ noWs repo
          ∧ num ≠ [] ∧ num.all Char.isDigit
      then some (owner, repo, (digitsToNat num : Int))
      else none

/-- Characters permitted in a URL scheme (`urllib.parse`'s `scheme_chars`). -/
def schemeCharOk (c : Char) : Bool :=
  c.isAlpha || c.isDigit || c = '+' || c = '-' || c = '.'

/-- A cut-down `urllib.parse.urlparse`, sufficient for `parse_pr_identifier`:
returns `(scheme, netloc, path)` exactly when both scheme and netloc are
nonempty (the only case the caller proceeds with).  The scheme is the text
before the first `:` (first character alphabetic, all in `scheme_chars`), the
netloc follows `//` up to the next `/`, `?` or `#`, and the path extends from
there to the first `?` or `#`. -/
def urlparseLite (s : PyStr) : Option (PyStr × PyStr × PyStr) :=
  match splitFirst ':' s with
  | none => none
  | some (sch, rest) =>
    if ((match sch with | [] => false | c :: _ => c.isAlpha) && sch.all schemeCharOk) then
      match rest with
      | '/' :: '/' :: rest2 =>
        let netloc := rest2.takeWhile (fun c => !(c = '/' ∨ c = '?' ∨ c = '#'))
        let after := rest2.drop netloc.length
        let path := after.takeWhile (fun c => !(c = '?' ∨ c = '#'))
        if netloc ≠ [] then some (sch, netloc, path) else none
      | _ => none
    else none

/-- Python `str.lower()` (ASCII letters; the compared hosts are ASCII). -/
def pyLower (s : PyStr) : PyStr := s.map Char.toLower

/-- `[seg for seg in path.strip("/").split("/") if seg]` (stripping the
slashes only removes empty fields, which the filter drops anyway). -/
def pathSegments (path : PyStr) : List PyStr :=
  (splitOnChar '/' path).filter (fun seg => seg ≠ [])

/-- `str.endswith`. -/
def strEndsWith (s suffix : PyStr) : Bool := suffix.isSuffixOf s

/-- `github.parse_pr_identifier`: strip, try the short-form regex, then the
web-URL branch, then the API-URL branch; every `raise ValueError` is `none`
(a failed `int()` inside a branch raises immediately, it does not fall
through to the next branch). -/
def parsePrIdentifier (s : PyStr) : Option (PyStr × PyStr × Int) :=
  let t := pyStrip s
  match shortMatch t with
  | some r => some r
  | none =>
    match urlparseLite t with
    | none => none
    | some (_sch, netloc, path) =>
      let host := pyLower netloc
      let segments := pathSegments path
      if strEndsWith host "github.com".data ∧ 4 ≤ segments.length
          ∧ segments.getD 2 [] = "pull".data then
        (pyInt (segments.getD 3 [])).map
          (fun n => (segments.getD 0 [], segments.getD 1 [], n))
      else if host = "api.github.com".data ∧ 5 ≤ segments.length
          ∧ segments.getD 0 [] = "repos".data
          ∧ (segments.getD 3 [] = "pulls".data ∨ segments.getD 3 [] = "pull".data) then
        (pyInt (segments.getD 4 [])).map
          (fun n => (segments.getD 1 [], segments.getD 2 [], n))
      else none

/-- The spec's accepted form 1 (short form `owner/repo#number`), rendered
executably: exact match, `owner` and `repo` nonempty with no embedded
whitespace and unambiguous (`repo` slash-free), `number` a nonempty
non-negative digit literal. -/
def specShortForm (s : PyStr) : Option (PyStr × PyStr × Int) :=
  match splitFirst '/' s with
  | none => none
  | some (owner, rest) =>
    match splitFirst '#' rest with
    | none => none
    | some (repo, num) =>
      if owner ≠ [] ∧ noWs owner ∧ repo ≠ [] ∧ noWs repo ∧ '/' ∉ repo
          ∧ num ≠ [] ∧ num.all Char.isDigit
      then some (owner, repo, (digitsToNat num : Int))
      else none

/-- The spec's accepted form 2, the web URL
`https://<host ending in "github.com">/{owner}/{repo}/pull/{number}[/...]`,
rendered executably over the URL decomposition: literal `https` scheme, host
ending in `github.com`, third path segment `pull`, fourth a nonempty digit
literal, trailing segments after the number ignored.  Being a URL, the string
carries no whitespace and no query/fragment markers. -/
def specWebForm (s : PyStr) : Option (PyStr × PyStr × Int) :=
  if noWs s ∧ '#' ∉ s ∧ '?' ∉ s then
    match urlparseLite s with
    | none => none
    | some (sch, netloc, path) =>
      let segments := pathSegments path
      if sch = "https".data ∧ strEndsWith (pyLower netloc) "github.com".data
          ∧ 4 ≤ segments.length ∧ segments.getD 2 [] = "pull".data
          ∧ segments.getD 3 [] ≠ [] ∧ (segments.getD 3 []).all Char.isDigit then
        some (segments.getD 0 [], segments.getD 1 [],
          (digitsToNat (segments.getD 3 []) : Int))
      else none
  else none

/-- The spec's accepted form 3, the API URL
`https://api.github.com/repos/{owner}/{repo}/pulls/{number}` (exact: five
path segments, segment `pulls`, a nonempty digit literal number). -/
def specApiForm (s : PyStr) : Option (PyStr × PyStr × Int) :=
  if noWs s ∧ '#' ∉ s ∧ '?' ∉ s then
    match urlparseLite s with
    | none => none
    | some (sch, netloc, path) =>
      let segments := pathSegments path
      if sch = "https".data ∧ netloc = "api.github.com".data
          ∧ segments.length = 5 ∧ segments.getD 0 [] = "repos".data
          ∧ segments.getD 3 [] = "pulls".data
          ∧ segments.getD 4 [] ≠ [] ∧ (segments.getD 4 []).all Char.isDigit then
        some (segments.getD 1 [], segments.getD 2 [],
          (digitsToNat (segments.getD 4 []) : Int))
      else none
  else none

/-- The three accepted identifier forms of §4.1, tried in order. -/
def specPrForms (s : PyStr) : Option (PyStr × PyStr × Int) :=
  match specShortForm s with
  | some r => some r
  | none =>
    match specWebForm s with
    | some r => some r
    | none => specApiForm s

/-- The API form as amended by claim C2's counterexample: the repo segment
must differ from `pull` (otherwise the code's web-URL branch fires on the
path `repos/{owner}/pull/pulls/{n}` and fails on `int("pulls")`). -/
def specApiFormAmended (s : PyStr) : Option (PyStr × PyStr × Int) :=
  match specApiForm s with
  | none => none
  | some (o, r, n) => if r = "pull".data then none else some (o, r, n)

/-- The amended accepted forms: short form, web form, and the API form with
repo ≠ `pull`. -/
def specPrFormsAmended (s : PyStr) : Option (PyStr × PyStr × Int) :=
  match specShortForm s with
  | some r => some r
  | none =>
    match specWebForm s with
    | some r => some r
    | none => specApiFormAmended s

theorem noWs_of_digits {s : PyStr} (hd : s.all Char.isDigit = true) :
    noWs s = true := by
  simp only [noWs, List.all_eq_true]
  intro c hc
  have h9 := (List.all_eq_true.mp hd) c hc
  cases hsp : pyIsSpace c with
  | false => simp [hsp]
  | true =>
    exfalso
    have hmem : c = ' ' ∨ c = '\t' ∨ c = '\n' ∨ c = '\r' ∨ c = '\x0b' ∨ c = '\x0c' := by
      simpa [pyIsSpace] using hsp
    rcases hmem with rfl | rfl | rfl | rfl | rfl | rfl <;> exact absurd h9 (by decide)

theorem noWs_append {a b : PyStr} (ha : noWs a = true) (hb : noWs b = true) :
    noWs (a ++ b) = true := by
  simp only [noWs, List.all_append, Bool.and_eq_true]
  exact ⟨ha, hb⟩

theorem noWs_cons {c : Char} {s : PyStr} (hc : pyIsSpace c = false)
    (hs : noWs s = true) : noWs (c :: s) = true := by
  simp only [noWs, List.all_cons, Bool.and_eq_true]
  exact ⟨by simp [hc], hs⟩

theorem shortMatch_eq_none_of_no_hash {s : PyStr} (h : '#' ∉ s) :
    shortMatch s = none := by
  unfold shortMatch
  match hsp : splitFirst '/' s with
  | none => rfl
  | some (owner, rest) =>
    have hdec := splitFirst_decomp hsp
    have hrest : '#' ∉ rest := by
      intro hm
      exact h (by simp [hdec, hm])
    simp [splitFirst_eq_none_of_not_mem hrest]

/-- A short-form string per the spec also matches the code's regex. -/
theorem shortMatch_of_specShortForm {s : PyStr} {t : PyStr × PyStr × Int}
    (h : specShortForm s = some t) : noWs s = true ∧ shortMatch s = some t := by
  unfold specShortForm at h
  match hsp : splitFirst '/' s with
  | none => rw [hsp] at h; exact absurd h (by simp)
  | some (owner, rest) =>
    rw [hsp] at h
    dsimp only at h
    match hsh : splitFirst '#' rest with
    | none => rw [hsh] at h; exact absurd h (by simp)
    | some (repo, num) =>
      rw [hsh] at h
      dsimp only at h
      by_cases hcond : owner ≠ [] ∧ noWs owner = true ∧ repo ≠ [] ∧ noWs repo = true
          ∧ '/' ∉ repo ∧ num ≠ [] ∧ num.all Char.isDigit = true
      · obtain ⟨ho, hwo, hr, hwr, hslash, hn, hdn⟩ := hcond
        rw [if_pos ⟨ho, hwo, hr, hwr, hslash, hn, hdn⟩] at h
        have ht : (owner, repo, (digitsToNat num : Int)) = t := Option.some.inj h
        constructor
        · have hs1 : s = owner ++ '/' :: rest := splitFirst_decomp hsp
          have hs2 : rest = repo ++ '#' :: num := splitFirst_decomp hsh
          rw [hs1, hs2]
          refine noWs_append hwo (noWs_cons (by decide) ?_)
          exact noWs_append hwr (noWs_cons (by decide) (noWs_of_digits hdn))
        · unfold shortMatch
          rw [hsp]
          dsimp only
          rw [hsh]
          dsimp only
          rw [if_pos ⟨ho, hwo, hr, hwr, hn, hdn⟩]
          exact congrArg some ht
      · rw [if_neg hcond] at h
        exact absurd h (by simp)

theorem parse_of_specShortForm {s : PyStr} {t : PyStr × PyStr × Int}
    (h : specShortForm s = some t) : parsePrIdentifier s = some t := by
  obtain ⟨hws, hsm⟩ := shortMatch_of_specShortForm h
  unfold parsePrIdentifier
  dsimp only
  rw [pyStrip_eq_self_of_noWs hws, hsm]

theorem parse_of_specWebForm {s : PyStr} {t : PyStr × PyStr × Int}
    (h : specWebForm s = some t) : parsePrIdentifier s = some t := by
  unfold specWebForm at h
  by_cases hpre : noWs s = true ∧ '#' ∉ s ∧ '?' ∉ s
  case neg => rw [if_neg hpre] at h; exact absurd h (by simp)
  rw [if_pos hpre] at h
  obtain ⟨hws, hnh, _⟩ := hpre
  match hu : urlparseLite s with
  | none => rw [hu] at h; exact absurd h (by simp)
  | some (sch, netloc, path) =>
    rw [hu] at h
    dsimp only at h
    by_cases hcond : sch = "https".data
        ∧ strEndsWith (pyLower netloc) "github.com".data = true
        ∧ 4 ≤ (pathSegments path).length
        ∧ (pathSegments path).getD 2 [] = "pull".data
        ∧ (pathSegments path).getD 3 [] ≠ []
        ∧ ((pathSegments path).getD 3 []).all Char.isDigit = true
    case neg => rw [if_neg hcond] at h; exact absurd h (by simp)
    rw [if_pos hcond] at h
    obtain ⟨_, hhost, hlen, hseg2, hne3, hdig3⟩ := hcond
    have ht := Option.some.inj h
    unfold parsePrIdentifier
    dsimp only
    rw [pyStrip_eq_self_of_noWs hws, shortMatch_eq_none_of_no_hash hnh]
    dsimp only
    rw [hu]
    dsimp only
    rw [if_pos ⟨hhost, hlen, hseg2⟩, pyInt_digits hne3 hdig3]
    exact congrArg some ht

theorem parse_of_specApiFormAmended {s : PyStr} {t : PyStr × PyStr × Int}
    (h : specApiFormAmended s = some t) : parsePrIdentifier s = some t := by
  unfold specApiFormAmended at h
  match ha : specApiForm s with
  | none => rw [ha] at h; exact absurd h (by simp)
  | some (o, r, n) =>
    rw [ha] at h
    dsimp only at h
    by_cases hrp : r = "pull".data
    case pos => rw [if_pos hrp] at h; exact absurd h (by simp)
    rw [if_neg hrp] at h
    have ht : (o, r, n) = t := Option.some.inj h
    unfold specApiForm at ha
    by_cases hpre : noWs s = true ∧ '#' ∉ s ∧ '?' ∉ s
    case neg => rw [if_neg hpre] at ha; exact absurd ha (by simp)
    rw [if_pos hpre] at ha
    obtain ⟨hws, hnh, _⟩ := hpre
    match hu : urlparseLite s with
    | none => rw [hu] at ha; exact absurd ha (by simp)
    | some (sch, netloc, path) =>
      rw [hu] at ha
      dsimp only at ha
      by_cases hcond : sch = "https".data ∧ netloc = "api.github.com".data
          ∧ (pathSegments path).length = 5
          ∧ (pathSegments path).getD 0 [] = "repos".data
          ∧ (pathSegments path).getD 3 [] = "pulls".data
          ∧ (pathSegments path).getD 4 [] ≠ []
          ∧ ((pathSegments path).getD 4 []).all Char.isDigit = true
      case neg => rw [if_neg hcond] at ha; exact absurd ha (by simp)
      rw [if_pos hcond] at ha
      obtain ⟨_, hnet, hlen5, hseg0, hseg3, hne4, hdig4⟩ := hcond
      have htriple := Option.some.inj ha
      have hr2 : (pathSegments path).getD 2 [] = r := congrArg (fun p => p.2.1) htriple
      have ho1 : (pathSegments path).getD 1 [] = o := congrArg (fun p => p.1) htriple
      have hn4 : (digitsToNat ((pathSegments path).getD 4 []) : Int) = n :=
        congrArg (fun p => p.2.2) htriple
      unfold parsePrIdentifier
      dsimp only
      rw [pyStrip_eq_self_of_noWs hws, shortMatch_eq_none_of_no_hash hnh]
      dsimp only
      rw [hu]
      dsimp only
      rw [if_neg (fun hc => hrp (hr2 ▸ hc.2.2))]
      rw [if_pos ?hc2]
      case hc2 =>
        refine ⟨?_, ?_, hseg0, Or.inl hseg3⟩
        · rw [hnet]; decide
        · omega
      rw [pyInt_digits hne4 hdig4]
      exact congrArg some (htriple.trans ht)

/-- Claim C2 (counterexample): the string
`https://api.github.com/repos/a/b/pull/1` matches none of the three accepted
identifier forms (the API form requires `pulls`), yet the resolver does not
fail with `MalformedIdentifier` — it returns `("a", "b", 1)`. -/
theorem parse_pr_identifier_counterexample :
    specPrForms "https://api.github.com/repos/a/b/pull/1".data = none
    ∧ parsePrIdentifier "https://api.github.com/repos/a/b/pull/1".data
        = some ("a".data, "b".data, (1 : Int)) := by
  constructor <;> decide

/-- Claim C2 (amended): every string matching the short form, the web-URL
form, or the API-URL form with repo segment other than `pull`, resolves to
exactly the `(owner, repo, number)` it encodes (the resolver also accepts
some further strings, e.g. API URLs written with `pull`, and is total:
failures are exactly `MalformedIdentifier`, modelled as `none`). -/
theorem parse_pr_identifier_amended (s : PyStr) (t : PyStr × PyStr × Int)
    (h : specPrFormsAmended s = some t) : parsePrIdentifier s = some t := by
  unfold specPrFormsAmended at h
  match h1 : specShortForm s with
  | some r => rw [h1] at h; exact (Option.some.inj h) ▸ parse_of_specShortForm h1
  | none =>
    rw [h1] at h
    dsimp only at h
    match h2 : specWebForm s with
    | some r => rw [h2] at h; exact (Option.some.inj h) ▸ parse_of_specWebForm h2
    | none =>
      rw [h2] at h
      dsimp only at h
      exact parse_of_specApiFormAmended h

/-- Claim C2 witness: the amended theorem applied at one concrete identifier
of each accepted form. -/
theorem parse_pr_identifier_amended_witness :
    (specPrFormsAmended "octo/hello#42".data
        = some ("octo".data, "hello".data, (42 : Int))
      ∧ parsePrIdentifier "octo/hello#42".data
        = some ("octo".data, "hello".data, (42 : Int)))
    ∧ (specPrFormsAmended "https://github.com/a/b/pull/7/files".data
        = some ("a".data, "b".data, (7 : Int))
      ∧ parsePrIdentifier "https://github.com/a/b/pull/7/files".data
        = some ("a".data, "b".data, (7 : Int)))
    ∧ (specPrFormsAmended "https://api.github.com/repos/a/b/pulls/3".data
        = some ("a".data, "b".data, (3 : Int))
      ∧ parsePrIdentifier "https://api.github.com/repos/a/b/pulls/3".data
        = some ("a".data, "b".data, (3 : Int))) :=
  ⟨⟨by decide, parse_pr_identifier_amended _ _ (by decide)⟩,
   ⟨by decide, parse_pr_identifier_amended _ _ (by decide)⟩,
   ⟨by decide, parse_pr_identifier_amended _ _ (by decide)⟩⟩

/-! ## `server/db.py` -/

/-- Index of the first occurrence of a (nonempty) substring. -/
def findSub (sep : PyStr) : PyStr → Option Nat
  | [] => if sep = [] then some 0 else none
  | c :: rest =>
    if sep.isPrefixOf (c :: rest) then some 0
    else (findSub sep rest).map (fun i => i + 1)

/-- Python `sep in s` (substring containment). -/
def containsSub (l sep : PyStr) : Bool := (findSub sep l).isSome

/-- Python `str.split(sep)` for a nonempty separator, with fuel (each found
occurrence consumes at least one character, so `length + 1` suffices). -/
def splitOnSubFuel (sep : PyStr) : Nat → PyStr → List PyStr
  | 0, l => [l]
  | fuel + 1, l =>
    match findSub sep l with
    | none => [l]
    | some i => l.take i :: splitOnSubFuel sep fuel (l.drop (i + sep.length))

/-- Python `str.split(sep)`. -/
def splitOnSub (l sep : PyStr) : List PyStr := splitOnSubFuel sep (l.length + 1) l

/-- Python `str.split(sep, 1)`. -/
def splitOnSub1 (l sep : PyStr) : List PyStr :=
  match findSub sep l with
  | none => [l]
  | some i => [l.take i, l.drop (i + sep.length)]

/-- Python truthiness of an optional string (`None` and `""` are falsy). -/
def truthyStr : Option PyStr → Bool
  | none => false
  | some s => s ≠ []

/-- A row of the `prs` table (`_ensure_minimal_schema`; `draft` and
`has_tests` are stored as 0/1 integers). -/
structure PrRow where
  id : PyStr
  owner : Option PyStr
  repo : Option PyStr
  number : Option Int
  title : Option PyStr
  author : Option PyStr
  state : Option PyStr
  html_url : Option PyStr
  created_at : Option PyStr
  updated_at : Option PyStr
  merged_at : Option PyStr
  additions : Int
  deletions : Int
  changed_files : Int
  draft : Int
  review_count : Int
  ci_status : PyStr
  has_tests : Int
  doc_touch_ratio : ℚ
  diff_stats : Option PyStr
deriving DecidableEq

/-- The flexible mapping accepted by `upsert_pr`, with every key the code
consults.  `user_login` models the nested `pr_row["user"]["login"]`; a
`diff_stats` value that is not already a string is modelled by its
`json.dumps` serialisation (the code stores exactly that). -/
structure PrInput where
  id : Option PyStr := none
  owner : Option PyStr := none
  repo : Option PyStr := none
  number : Option Int := none
  title : Option PyStr := none
  author : Option PyStr := none
  user_login : Option PyStr := none
  state : Option PyStr := none
  html_url : Option PyStr := none
  url : Option PyStr := none
  created_at : Option PyStr := none
  updated_at : Option PyStr := none
  merged_at : Option PyStr := none
  additions : Option Int := none
  deletions : Option Int := none
  changed_files : Option Int := none
  files_count : Option Int := none
  draft : Option Bool := none
  review_count : Option Int := none
  review_comments : Option Int := none
  ci_status : Option PyStr := none
  has_tests : Option Bool := none
  doc_touch_ratio : Option ℚ := none
  diff_stats : Option PyStr := none
deriving DecidableEq

/-- `db._normalize_pr_identity`: `(id, owner, repo, number)`, or `none` for
the final `raise ValueError`.  The URL fallback
(`url.split("github.com/")[1].split("/pull/")` …) runs inside
`try/except: pass`; any failure (missing separator, bad int, no `/` in
`org_repo`) leaves `owner`, `repo` and `number` untouched. -/
def normalizePrIdentity (pr : PrInput) :
    Option (PyStr × Option PyStr × Option PyStr × Option Int) :=
  let attempted : Option (PyStr × PyStr × Int) :=
    if (pr.owner = none ∨ pr.repo = none ∨ pr.number = none) ∧ ¬ truthyStr pr.id then
      match orStr pr.html_url pr.url with
      | none => none
      | some url =>
        if containsSub url "github.com".data ∧ containsSub url "/pull/".data then
          let parts0 := splitOnSub url "github.com/".data
          if parts0.length < 2 then none
          else
            let parts := splitOnSub (parts0.getD 1 []) "/pull/".data
            if parts.length < 2 then none
            else
              let org_repo := parts.getD 0 []
              match pyInt ((splitOnChar '/' (parts.getD 1 [])).getD 0 []) with
              | none => none
              | some num =>
                match splitOnSub1 org_repo "/".data with
                | [o, r] => some (o, r, num)
                | _ => none
        else none
    else none
  let owner := match attempted with | some (o, _, _) => some o | none => pr.owner
  let repo := match attempted with | some (_, r, _) => some r | none => pr.repo
  let number := match attempted with | some (_, _, n) => some n | none => pr.number
  let pr_id :=
    if ¬ truthyStr pr.id ∧ truthyStr owner ∧ truthyStr repo ∧ number ≠ none then
      some ((owner.getD []) ++ '/' :: (repo.getD []) ++ '#' :: intToStr (number.getD 0))
    else pr.id
  let pr_id :=
    if ¬ truthyStr pr_id ∧ truthyStr pr.repo ∧ number ≠ none then
      some ((pr.repo.getD []) ++ '#' :: intToStr (number.getD 0))
    else pr_id
  match pr_id with
  | some i => if i = [] then none else some (i, owner, repo, number)
  | none => none

/-- The row `db.upsert_pr` builds from its input (field coalescing uses
Python `or`, so `0`, `""` and `None` fall through). -/
def prRowOf (pr : PrInput) : Option PrRow :=
  match normalizePrIdentity pr with
  | none => none
  | some (pr_id, owner, repo, number) =>
    some
      { id := pr_id
        owner := owner
        repo := repo
        number := number
        title := pr.title
        author := orStr pr.author pr.user_login
        state := if truthyStr pr.merged_at then some "merged".data else pr.state
        html_url := orStr pr.html_url pr.url
        created_at := pr.created_at
        updated_at := pr.updated_at
        merged_at := pr.merged_at
        additions := (orInt pr.additions (some 0)).getD 0
        deletions := (orInt pr.deletions (some 0)).getD 0
        changed_files := (orInt pr.changed_files (orInt pr.files_count (some 0))).getD 0
        draft := if coBool pr.draft then 1 else 0
        review_count := (orInt pr.review_count (orInt pr.review_comments (some 0))).getD 0
        ci_status := (orStr pr.ci_status (some "unknown".data)).getD []
        has_tests := if coBool pr.has_tests then 1 else 0
        doc_touch_ratio := coRat pr.doc_touch_ratio
        diff_stats := pr.diff_stats }

/-- The `prs` table. -/
abbrev PrsTable := List PrRow

/-- `INSERT INTO prs … ON CONFLICT(id) DO UPDATE SET` every non-key field:
replace the conflicting row wholesale, else append. -/
def tableUpsert (t : PrsTable) (row : PrRow) : PrsTable :=
  if t.any (fun x => decide (x.id = row.id)) then
    t.map (fun x => if x.id = row.id then row else x)
  else t ++ [row]

/-- `db.upsert_pr` over the in-memory table; `none` is the `ValueError` for an
unidentifiable row. -/
def upsert_pr (pr : PrInput) (t : PrsTable) : Option PrsTable :=
  (prRowOf pr).map (tableUpsert t)

/-- The PRIMARY KEY invariant of the `prs` table. -/
def uniqueIds (t : PrsTable) : Prop := (t.map (fun r => r.id)).Nodup

theorem filter_map_replace (t : PrsTable) (row : PrRow)
    (hu : (t.map (fun r => r.id)).Nodup) (hmem : ∃ x ∈ t, x.id = row.id) :
    (t.map (fun x => if x.id = row.id then row else x)).filter
      (fun x => decide (x.id = row.id)) = [row] := by
  induction t with
  | nil => simp at hmem
  | cons y ys ih =>
    simp only [List.map_cons, List.nodup_cons] at hu
    obtain ⟨hy, hys⟩ := hu
    by_cases hid : y.id = row.id
    · have hnone : ∀ x ∈ ys, ¬ x.id = row.id := fun x hx hcon =>
        hy (List.mem_map.mpr ⟨x, hx, by rw [hcon, hid]⟩)
      have hmap : ys.map (fun x => if x.id = row.id then row else x) = ys :=
        (List.map_congr_left (fun x hx => by simp [hnone x hx])).trans (List.map_id ys)
      have hfil : ys.filter (fun x => decide (x.id = row.id)) = [] :=
        List.filter_eq_nil_iff.mpr (fun x hx => by simpa using hnone x hx)
      simp [hid, hmap, hfil]
    · have hmem2 : ∃ x ∈ ys, x.id = row.id := by
        rcases hmem with ⟨x, hx, hxid⟩
        rcases List.mem_cons.mp hx with rfl | hx2
        · exact absurd hxid hid
        · exact ⟨x, hx2, hxid⟩
      simp only [List.map_cons, if_neg hid]
      rw [List.filter_cons_of_neg (by simpa using hid)]
      exact ih hys hmem2

theorem tableUpsert_filter (t : PrsTable) (row : PrRow) (hu : uniqueIds t) :
    (tableUpsert t row).filter (fun x => decide (x.id = row.id)) = [row] := by
  unfold tableUpsert
  by_cases hmem : ∃ x ∈ t, x.id = row.id
  · rw [if_pos (List.any_eq_true.mpr (by simpa using hmem))]
    exact filter_map_replace t row hu hmem
  · rw [if_neg (fun hc => hmem (by simpa using List.any_eq_true.mp hc))]
    rw [List.filter_append,
      List.filter_eq_nil_iff.mpr (fun x hx => by
        simpa using fun hcon => hmem ⟨x, hx, hcon⟩)]
    simp

theorem tableUpsert_uniqueIds (t : PrsTable) (row : PrRow) (hu : uniqueIds t) :
    uniqueIds (tableUpsert t row) := by
  unfold tableUpsert uniqueIds
  by_cases hmem : t.any (fun x => decide (x.id = row.id)) = true
  · rw [if_pos hmem]
    have hids : (t.map (fun x => if x.id = row.id then row else x)).map
        (fun r => r.id) = t.map (fun r => r.id) := by
      rw [List.map_map]
      exact List.map_congr_left (fun x hx => by
        by_cases h : x.id = row.id <;> simp [Function.comp, h])
    rw [hids]
    exact hu
  · rw [if_neg hmem, List.map_append]
    simp only [List.map_cons, List.map_nil]
    rw [List.nodup_append]
    refine ⟨hu, List.nodup_singleton _, ?_⟩
    intro a ha hb
    simp only [List.mem_singleton] at hb
    rcases List.mem_map.mp ha with ⟨x, hx, hxa⟩
    exact hmem (List.any_eq_true.mpr ⟨x, hx, by simp [hxa ▸ hb]⟩)

/-- Claim C6: upserting a record twice leaves the store with exactly one row
keyed by its id, carrying the (second) write's values; an upsert inserts when
the id is absent and otherwise replaces every non-key field of the existing
row wholesale (last-write-wins, no field-level merge). -/
theorem upsert_pr_idempotent_lww (t t1 t2 : PrsTable) (pr : PrInput) (row : PrRow)
    (hu : uniqueIds t) (hrow : prRowOf pr = some row)
    (h1 : upsert_pr pr t = some t1) (h2 : upsert_pr pr t1 = some t2) :
    t2 = t1
    ∧ t1.filter (fun x => decide (x.id = row.id)) = [row]
    ∧ uniqueIds t1
    ∧ ((∀ x ∈ t, x.id ≠ row.id) → t1 = t ++ [row])
    ∧ ((∃ x ∈ t, x.id = row.id) →
        t1 = t.map (fun x => if x.id = row.id then row else x)) := by
  unfold upsert_pr at h1 h2
  rw [hrow] at h1 h2
  simp only [Option.map_some'] at h1 h2
  have ht1 : t1 = tableUpsert t row := (Option.some.inj h1).symm
  have ht2 : t2 = tableUpsert t1 row := (Option.some.inj h2).symm
  have hfil : t1.filter (fun x => decide (x.id = row.id)) = [row] :=
    ht1 ▸ tableUpsert_filter t row hu
  have huniq : uniqueIds t1 := ht1 ▸ tableUpsert_uniqueIds t row hu
  refine ⟨?_, hfil, huniq, ?_, ?_⟩
  · have hrowmem : row ∈ t1 ∧ decide (row.id = row.id) = true :=
      List.mem_filter.mp (hfil ▸ List.mem_singleton_self row)
    have hany : t1.any (fun x => decide (x.id = row.id)) = true :=
      List.any_eq_true.mpr ⟨row, hrowmem.1, by simp⟩
    rw [ht2]
    unfold tableUpsert
    rw [if_pos hany]
    refine (List.map_congr_left (fun x hx => ?_)).trans (List.map_id t1)
    by_cases hxid : x.id = row.id
    · have hxfil : x ∈ t1.filter (fun x => decide (x.id = row.id)) :=
        List.mem_filter.mpr ⟨hx, by simp [hxid]⟩
      rw [hfil] at hxfil
      simp only [List.mem_singleton] at hxfil
      simp [hxid, hxfil]
    · simp [hxid]
  · intro habs
    rw [ht1]
    unfold tableUpsert
    rw [if_neg (fun hc => ?_)]
    rcases List.any_eq_true.mp hc with ⟨x, hx, hxid⟩
    exact habs x hx (by simpa using hxid)
  · intro hex
    rw [ht1]
    unfold tableUpsert
    rw [if_pos (List.any_eq_true.mpr (by simpa using hex))]

/-- Input record for the C6 witness. -/
def c6pr : PrInput :=
  { id := some "a/b#1".data
    title := some "T".data
    additions := some 3 }

/-- The row `upsert_pr` stores for `c6pr`. -/
def c6row : PrRow :=
  { id := "a/b#1".data
    owner := none
    repo := none
    number := none
    title := some "T".data
    author := none
    state := none
    html_url := none
    created_at := none
    updated_at := none
    merged_at := none
    additions := 3
    deletions := 0
    changed_files := 0
    draft := 0
    review_count := 0
    ci_status := "unknown".data
    has_tests := 0
    doc_touch_ratio := 0
    diff_stats := none }

/-- Claim C6 witness: the upsert theorem applied at a concrete record on an
empty store. -/
theorem upsert_pr_idempotent_lww_witness :
    [c6row] = [c6row]
    ∧ List.filter (fun x => decide (x.id = c6row.id)) [c6row] = [c6row]
    ∧ uniqueIds [c6row]
    ∧ ((∀ x ∈ ([] : PrsTable), x.id ≠ c6row.id) → [c6row] = [] ++ [c6row])
    ∧ ((∃ x ∈ ([] : PrsTable), x.id = c6row.id) →
        [c6row] = ([] : PrsTable).map (fun x => if x.id = c6row.id then c6row else x)) :=
  upsert_pr_idempotent_lww [] [c6row] [c6row] c6pr c6row
    (by simp [uniqueIds]) (by decide) (by decide) (by decide)

/-! ## `server/github.py` (`enrich_pr`) -/

/-- The GitHub PR JSON fields `enrich_pr` reads; `user_login` models
`pr["user"]["login"]` and the three name lists model the extracted
`name`/`login` entries of the label/assignee/reviewer dicts. -/
structure PrJson where
  html_url : Option PyStr := none
  title : Option PyStr := none
  state : Option PyStr := none
  draft : Option Bool := none
  merged : Option Bool := none
  user_login : Option PyStr := none
  labels : List PyStr := []
  assignees : List PyStr := []
  requested_reviewers : List PyStr := []
  base_ref : Option PyStr := none
  head_ref : Option PyStr := none
  additions : Option Int := none
  deletions : Option Int := none
  changed_files : Option Int := none
  created_at : Option PyStr := none
  updated_at : Option PyStr := none
  closed_at : Option PyStr := none
deriving DecidableEq

/-- The `normalized` dict `enrich_pr` builds and returns (the `raw` field
carries the response JSON through unchanged). -/
structure NormalizedPr where
  owner : PyStr
  repo : PyStr
  number : Int
  url : Option PyStr
  title : Option PyStr
  state : Option PyStr
  draft : Option Bool
  merged : Option Bool
  user_login : Option PyStr
  labels : List PyStr
  assignees : List PyStr
  requested_reviewers : List PyStr
  base_ref : Option PyStr
  head_ref : Option PyStr
  additions : Option Int
  deletions : Option Int
  changed_files : Option Int
  created_at : Option PyStr
  updated_at : Option PyStr
  closed_at : Option PyStr
  raw : PrJson
deriving DecidableEq

/-- The exceptions `enrich_pr` can raise. -/
inductive EnrichErr where
  | malformedIdentifier
  | missingToken
  | httpError
deriving DecidableEq

/-- Outcome of the GitHub GET: a JSON body, or an HTTP error status
(`response.raise_for_status()`). -/
inductive FetchResult where
  | ok (pr : PrJson)
  | httpError
deriving DecidableEq

/-- The `normalized` dict as seen by `db.upsert_pr`: their shared keys are
`owner`, `repo`, `number`, `url`, `title`, `state`, `draft`, `created_at`,
`updated_at`, `additions`, `deletions`, `changed_files`.  The dict's
`user_login` key is not the nested `user.login` that `upsert_pr` reads, its
`merged` flag is not `merged_at`, and it carries no `id`, so those stay
absent. -/
def normalizedToInput (n : NormalizedPr) : PrInput :=
  { owner := some n.owner
    repo := some n.repo
    number := some n.number
    title := n.title
    state := n.state
    url := n.url
    created_at := n.created_at
    updated_at := n.updated_at
    additions := n.additions
    deletions := n.deletions
    changed_files := n.changed_files
    draft := n.draft }

/-- `github.enrich_pr`: parse the identifier, require a truthy token
(`github_token or os.getenv("GITHUB_TOKEN")`, then `if not token: raise` —
`None` and the empty string both fail), fetch the PR — `raise_for_status`
propagates an HTTP error — normalise the JSON, upsert the record into the
`prs` table via `db.upsert_pr`, and return it.  The store is threaded
explicitly; every `raise` is an `Except.error`. -/
def enrich_pr (pr_identifier : PyStr) (github_token env_token : Option PyStr)
    (fetch : FetchResult) (db : PrsTable) :
    Except EnrichErr (NormalizedPr × PrsTable) :=
  match parsePrIdentifier pr_identifier with
  | none => .error .malformedIdentifier
  | some (owner, repo, number) =>
    if truthyStr (orStr github_token env_token) then
      match fetch with
      | .httpError => .error .httpError
      | .ok pr =>
        let normalized : NormalizedPr :=
          { owner := owner
            repo := repo
            number := number
            url := pr.html_url
            title := pr.title
            state := pr.state
            draft := pr.draft
            merged := pr.merged
            user_login := pr.user_login
            labels := pr.labels
            assignees := pr.assignees
            requested_reviewers := pr.requested_reviewers
            base_ref := pr.base_ref
            head_ref := pr.head_ref
            additions := pr.additions
            deletions := pr.deletions
            changed_files := pr.changed_files
            created_at := pr.created_at
            updated_at := pr.updated_at
            closed_at := pr.closed_at
            raw := pr }
        match upsert_pr (normalizedToInput normalized) db with
        | none => .error .malformedIdentifier
        | some db2 => .ok (normalized, db2)
    else .error .missingToken

/-- Claim C3 (counterexample): on an upstream fetch failure, `enrich_pr` does
not return a degraded record with null fields — it raises the HTTP error. -/
theorem enrich_pr_degradation_counterexample :
    enrich_pr "a/b#1".data (some "tok".data) none FetchResult.httpError []
        = Except.error EnrichErr.httpError
    ∧ (enrich_pr "a/b#1".data (some "tok".data) none FetchResult.httpError []).isOk
        = false :=
  ⟨rfl, rfl⟩

/-- Claim C3 (amended): whenever the identifier parses and a truthy
(non-empty) token is available, a fetch failure makes `enrich_pr` raise the
fetch error to the caller — no record is constructed and the store is
untouched. -/
theorem enrich_pr_raises_on_fetch_failure (ident : PyStr)
    (tok env : Option PyStr) (db : PrsTable) (owner repo : PyStr) (number : Int)
    (hp : parsePrIdentifier ident = some (owner, repo, number))
    (ht : truthyStr (orStr tok env) = true) :
    enrich_pr ident tok env FetchResult.httpError db
      = Except.error EnrichErr.httpError := by
  unfold enrich_pr
  rw [hp]
  dsimp only
  rw [if_pos ht]

/-- Claim C3 witness: the amended theorem at a concrete identifier. -/
theorem enrich_pr_raises_on_fetch_failure_witness :
    enrich_pr "x/y#9".data (some "tok".data) none FetchResult.httpError []
      = Except.error EnrichErr.httpError :=
  enrich_pr_raises_on_fetch_failure "x/y#9".data (some "tok".data) none []
    "x".data "y".data 9 (by decide) (by decide)

/-- Claim C4 (counterexample): `enrich_pr` is not free of store side effects —
on a successful fetch it writes to the `prs` table itself: starting from the
empty store, the store it returns is nonempty. -/
theorem enrich_pr_not_pure_counterexample :
    (match enrich_pr "a/b#1".data (some "tok".data) none
        (FetchResult.ok { title := some "T".data }) [] with
      | .ok p => p.2
      | .error _ => []) ≠ ([] : PrsTable) := by
  decide

/-- Claim C4 (amended): `enrich_pr` persists the record itself: whenever it
succeeds, the store it returns is exactly the incoming store with the
returned record upserted via `db.upsert_pr` — persistence is performed inside
`enrich`, not left to the caller. -/
theorem enrich_pr_upserts (ident : PyStr) (tok env : Option PyStr)
    (pr : PrJson) (db : PrsTable) (n : NormalizedPr) (db2 : PrsTable)
    (h : enrich_pr ident tok env (FetchResult.ok pr) db = .ok (n, db2)) :
    upsert_pr (normalizedToInput n) db = some db2 := by
  unfold enrich_pr at h
  match hp : parsePrIdentifier ident with
  | none => rw [hp] at h; exact absurd h (by simp)
  | some (owner, repo, number) =>
    rw [hp] at h
    dsimp only at h
    by_cases hto : truthyStr (orStr tok env) = true
    case neg => rw [if_neg hto] at h; exact absurd h (by simp)
    · rw [if_pos hto] at h
      match hup : upsert_pr (normalizedToInput
          { owner := owner, repo := repo, number := number, url := pr.html_url,
            title := pr.title, state := pr.state, draft := pr.draft,
            merged := pr.merged, user_login := pr.user_login,
            labels := pr.labels, assignees := pr.assignees,
            requested_reviewers := pr.requested_reviewers,
            base_ref := pr.base_ref, head_ref := pr.head_ref,
            additions := pr.additions, deletions := pr.deletions,
            changed_files := pr.changed_files, created_at := pr.created_at,
            updated_at := pr.updated_at, closed_at := pr.closed_at,
            raw := pr }) db with
      | none => rw [hup] at h; exact absurd h (by simp)
      | some db3 =>
        rw [hup] at h
        dsimp only at h
        have hpair := Except.ok.inj h
        have hn := congrArg Prod.fst hpair
        have hdb := congrArg Prod.snd hpair
        dsimp only at hn hdb
        rw [← hn, ← hdb] at *
        rw [← hn, ← hdb]
        exact hup

/-- Fetched JSON for the C4 witness. -/
def c4json : PrJson := { title := some "T".data }

/-- The record `enrich_pr` returns for `c4json` at `a/b#1`. -/
def c4norm : NormalizedPr :=
  { owner := "a".data
    repo := "b".data
    number := 1
    url := none
    title := some "T".data
    state := none
    draft := none
    merged := none
    user_login := none
    labels := []
    assignees := []
    requested_reviewers := []
    base_ref := none
    head_ref := none
    additions := none
    deletions := none
    changed_files := none
    created_at := none
    updated_at := none
    closed_at := none
    raw := c4json }

/-- The row the upsert inside `enrich_pr` stores for `c4norm`. -/
def c4row : PrRow :=
  { id := "a/b#1".data
    owner := some "a".data
    repo := some "b".data
    number := some 1
    title := some "T".data
    author := none
    state := none
    html_url := none
    created_at := none
    updated_at := none
    merged_at := none
    additions := 0
    deletions := 0
    changed_files := 0
    draft := 0
    review_count := 0
    ci_status := "unknown".data
    has_tests := 0
    doc_touch_ratio := 0
    diff_stats := none }

/-- Claim C4 witness: the amended theorem at a concrete successful
enrichment. -/
theorem enrich_pr_upserts_witness :
    upsert_pr (normalizedToInput c4norm) [] = some [c4row] :=
  enrich_pr_upserts "a/b#1".data (some "tok".data) none c4json [] c4norm [c4row] rfl

/-! ## `server/db.py` (`get_recent_prs`) -/

/-- A row of the `runs` table (the fields `get_recent_prs` consults). -/
structure RunRow where
  id : PyStr
  title : Option PyStr := none
  created_at : Option PyStr := none
  updated_at : Option PyStr := none
  pr_url : Option PyStr := none
deriving DecidableEq

/-- The database as seen through `db.conn()`: the `runs` and `prs` tables. -/
structure Db where
  runs : List RunRow
  prs : PrsTable
deriving DecidableEq

/-- SQL `COALESCE(a, b)`. -/
def sqlCoalesce (a b : Option PyStr) : Option PyStr :=
  match a with
  | none => b
  | some v => some v

/-- SQL `TRIM(x)` (default: strips space characters from both ends). -/
def sqlTrim (s : PyStr) : PyStr :=
  ((s.dropWhile (fun c => c = ' ')).reverse.dropWhile (fun c => c = ' ')).reverse

/-- SQL `MAX(expr)` over a group: greatest non-NULL TEXT value under BINARY
collation; NULL when every value is NULL. -/
def sqlMaxStr (l : List (Option PyStr)) : Option PyStr :=
  l.foldl
    (fun acc v =>
      match acc, v with
      | none, v => v
      | some a, none => some a
      | some a, some b => if strLe a b then some b else some a)
    none

/-- One aggregate row of the fallback query
(`pr_url AS html_url, MAX(COALESCE(updated_at, created_at)) AS updated_at,
COUNT(*) AS occurrences, MAX(title) AS title`). -/
structure SynthRow where
  html_url : Option PyStr
  updated_at : Option PyStr
  occurrences : Int
  title : Option PyStr
deriving DecidableEq

/-- A dict returned by `get_recent_prs`: a full `prs` row, or a synthesized
placeholder whose only populated columns are `html_url`, `updated_at`,
`occurrences` and `title`, plus the `id` and `state` entries the Python loop
adds. -/
inductive OutRec where
  | fromPrs (row : PrRow)
  | synth (html_url : Option PyStr) (updated_at : Option PyStr)
      (occurrences : Int) (title : Option PyStr) (id : PyStr) (state : PyStr)
deriving DecidableEq

/-- The id an output record carries. -/
def outId : OutRec → PyStr
  | .fromPrs row => row.id
  | .synth _ _ _ _ i _ => i

/-- `LIMIT ?` with `int(limit) if limit is not None else 50` (SQLite treats a
negative limit as unbounded). -/
def sqlLimit (limit : Option Int) (l : List α) : List α :=
  let n := limit.getD 50
  if n < 0 then l else l.take n.toNat

/-- The `WHERE pr_url IS NOT NULL AND TRIM(pr_url) <> \'\'` filter of the
fallback query. -/
def runsWithPrUrl (runs : List RunRow) : List RunRow :=
  runs.filter
    (fun r =>
      match r.pr_url with
      | none => false
      | some u => decide (sqlTrim u ≠ []))

/-- The distinct `pr_url` group keys (`GROUP BY pr_url`). -/
def prUrlKeys (runs : List RunRow) : List PyStr :=
  ((runsWithPrUrl runs).map (fun r => r.pr_url.getD [])).dedup

/-- The aggregate row of one `pr_url` group. -/
def synthGroup (runs : List RunRow) (u : PyStr) : SynthRow :=
  let grp := (runsWithPrUrl runs).filter (fun r => decide (r.pr_url = some u))
  { html_url := some u
    updated_at := sqlMaxStr (grp.map (fun r => sqlCoalesce r.updated_at r.created_at))
    occurrences := (grp.length : Int)
    title := sqlMaxStr (grp.map (fun r => r.title)) }

/-- The Python normalisation loop: `d["id"] = d.get("html_url", "")` and
`d["state"] = "open"`. -/
def synthOut (d : SynthRow) : OutRec :=
  OutRec.synth d.html_url d.updated_at d.occurrences d.title
    (d.html_url.getD []) "open".data

/-- The fallback branch of `get_recent_prs`: group the runs with a non-NULL,
non-blank `pr_url` by exact `pr_url`, aggregate, order by the aggregated
`updated_at` descending, apply the limit, then add `id` and `state`. -/
def synthFromRuns (runs : List RunRow) (limit : Option Int) : List OutRec :=
  (sqlLimit limit
    (sortB (fun y a => sqlOptLe y.updated_at a.updated_at)
      ((prUrlKeys runs).map (synthGroup runs)))).map synthOut

/-- `db.get_recent_prs`: prefer the `prs` table (ordered by
`COALESCE(updated_at, created_at) DESC`, limited); if it is empty, synthesize
placeholders from `runs.pr_url`.  A pure read: the database is returned
unchanged. -/
def get_recent_prs (db : Db) (limit : Option Int) : List OutRec × Db :=
  let prsRows := sqlLimit limit
    (sortB (fun y a => sqlOptLe (sqlCoalesce y.updated_at y.created_at)
      (sqlCoalesce a.updated_at a.created_at)) db.prs)
  if prsRows ≠ [] then (prsRows.map OutRec.fromPrs, db)
  else (synthFromRuns db.runs limit, db)

theorem get_recent_prs_on_empty (db : Db) (limit : Option Int)
    (h : db.prs = []) :
    get_recent_prs db limit = (synthFromRuns db.runs limit, db) := by
  unfold get_recent_prs
  rw [h]
  simp [sortB, sqlLimit]

theorem sqlLimit_sublist (limit : Option Int) (l : List α) :
    (sqlLimit limit l).Sublist l := by
  unfold sqlLimit
  by_cases h : limit.getD 50 < 0
  · simp [h]
  · simp [h, List.take_sublist]

theorem sqlLimit_ne_nil (limit : Option Int) (l : List α) (hl : l ≠ [])
    (hlim : match limit with | none => True | some n => 1 ≤ n) :
    sqlLimit limit l ≠ [] := by
  have hn1 : 1 ≤ (limit.getD 50).toNat := by
    cases limit with
    | none => simp
    | some n => simp only at hlim; simp; omega
  unfold sqlLimit
  by_cases h : limit.getD 50 < 0
  · simp only [if_pos h]; exact hl
  · rw [if_neg h]
    intro hcon
    have := congrArg List.length hcon
    rw [List.length_take] at this
    simp only [List.length_nil] at this
    have hlpos : 0 < l.length := List.length_pos.mpr hl
    omega

theorem mem_prUrlKeys (runs : List RunRow) (u : PyStr) (hu : u ∈ prUrlKeys runs) :
    ∃ run ∈ runs, run.pr_url = some u ∧ sqlTrim u ≠ [] := by
  have hu2 := List.mem_dedup.mp hu
  rcases List.mem_map.mp hu2 with ⟨run, hrun, hru⟩
  have hrun2 := List.mem_filter.mp hrun
  refine ⟨run, hrun2.1, ?_⟩
  rcases hurl : run.pr_url with _ | v
  · rw [hurl] at hrun2
    simp at hrun2
  · rw [hurl] at hru
    simp only [Option.getD_some] at hru
    subst hru
    have hcond := hrun2.2
    rw [hurl] at hcond
    simp only [decide_eq_true_eq] at hcond
    exact ⟨rfl, hcond⟩

theorem synthFromRuns_shape (runs : List RunRow) (limit : Option Int) :
    ∀ rec ∈ synthFromRuns runs limit, ∃ u ua occ ti,
      rec = OutRec.synth (some u) ua occ ti u "open".data
      ∧ ∃ run ∈ runs, run.pr_url = some u ∧ sqlTrim u ≠ [] := by
  intro rec hrec
  unfold synthFromRuns at hrec
  rcases List.mem_map.mp hrec with ⟨d, hd, rfl⟩
  have hd2 := (sqlLimit_sublist limit _).subset hd
  have hd3 := (sortB_perm _ _).mem_iff.mp hd2
  rcases List.mem_map.mp hd3 with ⟨u, hu, rfl⟩
  exact ⟨u, _, _, _, rfl, mem_prUrlKeys runs u hu⟩

theorem synthFromRuns_nodup (runs : List RunRow) (limit : Option Int) :
    ((synthFromRuns runs limit).map outId).Nodup := by
  unfold synthFromRuns
  rw [List.map_map]
  have hkey : ∀ l : List SynthRow, l.map (outId ∘ synthOut)
      = l.map (fun d => d.html_url.getD []) :=
    fun l => List.map_congr_left (fun d _ => rfl)
  rw [hkey]
  refine List.Nodup.sublist (List.Sublist.map _ (sqlLimit_sublist limit _)) ?_
  have hperm := List.Perm.map (fun d : SynthRow => d.html_url.getD [])
    (sortB_perm (fun y a => sqlOptLe y.updated_at a.updated_at)
      ((prUrlKeys runs).map (synthGroup runs)))
  rw [hperm.nodup_iff, List.map_map]
  have hid : (prUrlKeys runs).map ((fun d => d.html_url.getD []) ∘ synthGroup runs)
      = prUrlKeys runs :=
    (List.map_congr_left (fun u _ => rfl)).trans (List.map_id _)
  rw [hid]
  exact List.nodup_dedup _

theorem synthFromRuns_length_le (runs : List RunRow) (n : Int) (hn : 0 ≤ n) :
    (synthFromRuns runs (some n)).length ≤ n.toNat := by
  unfold synthFromRuns sqlLimit
  rw [List.length_map]
  simp only [Option.getD_some]
  rw [if_neg (by omega), List.length_take]
  exact Nat.min_le_left n.toNat _

theorem synthFromRuns_ne_nil (runs : List RunRow) (limit : Option Int)
    (hex : ∃ run ∈ runs, ∃ u, run.pr_url = some u ∧ sqlTrim u ≠ [])
    (hlim : match limit with | none => True | some n => 1 ≤ n) :
    synthFromRuns runs limit ≠ [] := by
  obtain ⟨run, hrun, u, hurl, htrim⟩ := hex
  have hrow : run ∈ runsWithPrUrl runs :=
    List.mem_filter.mpr ⟨hrun, by rw [hurl]; simpa using htrim⟩
  have hkey : u ∈ prUrlKeys runs :=
    List.mem_dedup.mpr (List.mem_map.mpr ⟨run, hrow, by rw [hurl]; rfl⟩)
  have hkeys_ne : prUrlKeys runs ≠ [] :=
    fun hnil => by rw [hnil] at hkey; simp at hkey
  have hgroups_ne : (prUrlKeys runs).map (synthGroup runs) ≠ [] := by
    simpa [List.map_eq_nil_iff] using hkeys_ne
  have hsorted_ne : sortB (fun y a => sqlOptLe y.updated_at a.updated_at)
      ((prUrlKeys runs).map (synthGroup runs)) ≠ [] := by
    intro hcon
    have := (sortB_perm (fun y a => sqlOptLe y.updated_at a.updated_at)
      ((prUrlKeys runs).map (synthGroup runs))).length_eq
    rw [hcon] at this
    exact hgroups_ne (List.eq_nil_of_length_eq_zero this.symm)
  unfold synthFromRuns
  simp only [ne_eq, List.map_eq_nil_iff]
  exact sqlLimit_ne_nil limit _ hsorted_ne hlim

/-- Claim C10: when the `prs` table is empty, `get_recent_prs` does not just
return an empty list: the database is untouched (no writes, and no
enrichment — the function only reads), every returned record is a synthesized
placeholder built from some run's non-blank `pr_url` with `id` equal to that
URL string, `state` fixed to `"open"` and only `html_url`, `updated_at`,
`occurrences` and `title` otherwise populated, the returned ids are pairwise
distinct (one record per distinct `pr_url`), at most `limit` records are
returned, and whenever some run carries a non-blank `pr_url` (and the limit
is at least 1) the result is nonempty. -/
theorem get_recent_prs_fallback (db : Db) (limit : Option Int)
    (hprs : db.prs = []) :
    (get_recent_prs db limit).2 = db
    ∧ (∀ rec ∈ (get_recent_prs db limit).1, ∃ u ua occ ti,
        rec = OutRec.synth (some u) ua occ ti u "open".data
        ∧ ∃ run ∈ db.runs, run.pr_url = some u ∧ sqlTrim u ≠ [])
    ∧ ((get_recent_prs db limit).1.map outId).Nodup
    ∧ (∀ n : Int, limit = some n → 0 ≤ n →
        (get_recent_prs db limit).1.length ≤ n.toNat)
    ∧ ((∃ run ∈ db.runs, ∃ u, run.pr_url = some u ∧ sqlTrim u ≠ []) →
        (match limit with | none => True | some n => 1 ≤ n) →
        (get_recent_prs db limit).1 ≠ []) := by
  rw [get_recent_prs_on_empty db limit hprs]
  refine ⟨rfl, synthFromRuns_shape _ _, synthFromRuns_nodup _ _, ?_, ?_⟩
  · intro n hn h0
    subst hn
    exact synthFromRuns_length_le db.runs n h0
  · intro hex hlim
    exact synthFromRuns_ne_nil db.runs limit hex hlim

/-- A run for the C10 witness. -/
def c10run1 : RunRow :=
  { id := "r1".data
    title := some "Run one".data
    updated_at := some "2024-01-02".data
    pr_url := some "https://github.com/a/b/pull/1".data }

/-- A second run referencing the same PR. -/
def c10run2 : RunRow :=
  { id := "r2".data
    title := some "Run two".data
    updated_at := some "2024-01-03".data
    pr_url := some "https://github.com/a/b/pull/1".data }

/-- The C10 witness database: two runs, empty `prs` table. -/
def c10db : Db := { runs := [c10run1, c10run2], prs := [] }

/-- Claim C10 witness: the theorem at a concrete database, plus a concrete
evaluation — the two runs sharing one `pr_url` collapse to a single
placeholder. -/
theorem get_recent_prs_fallback_witness :
    ((get_recent_prs c10db (some 5)).2 = c10db
      ∧ (∀ rec ∈ (get_recent_prs c10db (some 5)).1, ∃ u ua occ ti,
          rec = OutRec.synth (some u) ua occ ti u "open".data
          ∧ ∃ run ∈ c10db.runs, run.pr_url = some u ∧ sqlTrim u ≠ [])
      ∧ ((get_recent_prs c10db (some 5)).1.map outId).Nodup
      ∧ (∀ n : Int, (some 5 : Option Int) = some n → 0 ≤ n →
          (get_recent_prs c10db (some 5)).1.length ≤ n.toNat)
      ∧ ((∃ run ∈ c10db.runs, ∃ u, run.pr_url = some u ∧ sqlTrim u ≠ []) →
          (match (some 5 : Option Int) with | none => True | some n => 1 ≤ n) →
          (get_recent_prs c10db (some 5)).1 ≠ []))
    ∧ (get_recent_prs c10db (some 5)).1
        = [OutRec.synth (some "https://github.com/a/b/pull/1".data)
            (some "2024-01-03".data) 2 (some "Run two".data)
            "https://github.com/a/b/pull/1".data "open".data] :=
  ⟨get_recent_prs_fallback c10db (some 5) rfl, by decide⟩

end PrReview
